import Mathlib

/-!
Shallow embedding of the `did-parser` Rust crate (src/lib.rs), a nom-5 based
parser for Decentralized Identifiers, together with theorems settling the
specification claims.

Inputs are modelled as `List Char` (nom's `&str` input is iterated char by
char by `take_while`/`tag`/`char`).  `IResult` is modelled as
`Except PErr (rest × value)`.  nom-5 specifics embedded faithfully:

* `bytes::complete::tag` / `take_while` and `character::complete::char`
  (used as `separated_list` separators) are complete: they return
  `Err::Error` at end of input, never `Incomplete`.
* the `char!('=')` macro inside `named!(parse_key_value_pair ...)` delegates
  to `character::streaming::char`, which returns `Err::Incomplete` on empty
  input; `Incomplete` propagates out of `separated_list` (only
  `Err::Error` stops the list) and is turned into `Err::Error(Complete)`
  by the `complete(..)` wrapper inside `Did::parse`'s `opt(complete(..))`.
* nom 5.1 `multi::separated_list` recognises zero or more elements; it has
  an infinite-loop guard after the first element parse and after each
  separator parse (`if i1 == i { SeparatedList error }`), but no guard on
  the element parse inside the loop.  The loop is embedded with a fuel
  argument; every accepted loop iteration consumes the separator character,
  so fuel `input.length + 1` is never exhausted.
* Rust `c as u8` truncation in the character-class closures is modelled by
  `Char.toNat % 256`.
* `HashMap` built by `Vec::into_iter().collect()` is modelled as an
  association list built by insertion (`collectMap`): last write wins on a
  duplicate key; `hmGet` is `HashMap::get`.
-/

set_option maxRecDepth 20000
set_option synthInstance.maxSize 100000

abbrev Str := List Char

/-- nom `ErrorKind` values reachable in this crate. -/
inductive EKind : Type where
  | Tag
  | Char
  | LengthValue
  | IsNot
  | Complete
  | SeparatedList
deriving DecidableEq

/-- A nom parse failure: `Err::Error(kind)` or `Err::Incomplete`. -/
inductive PErr : Type where
  | error (kind : EKind)
  | incomplete
deriving DecidableEq

/-- `IResult<&str, O>`: on success the remaining input and the value. -/
abbrev IRes (α : Type) := Except PErr (Str × α)

instance {ε α : Type} [DecidableEq ε] [DecidableEq α] :
    DecidableEq (Except ε α) := fun x y =>
  match x, y with
  | .ok a, .ok b =>
    if h : a = b then .isTrue (by rw [h])
    else .isFalse (by intro hh; cases hh; exact h rfl)
  | .ok _, .error _ => .isFalse (by intro hh; cases hh)
  | .error _, .ok _ => .isFalse (by intro hh; cases hh)
  | .error e, .error f =>
    if h : e = f then .isTrue (by rw [h])
    else .isFalse (by intro hh; cases hh; exact h rfl)

/-- `nom::bytes::complete::tag` -/
def tagP (t : Str) (i : Str) : IRes Str :=
  if t.isPrefixOf i then .ok (i.drop t.length, t) else .error (.error .Tag)

/-- `nom::bytes::complete::take_while` (never fails). -/
def takeWhileP (p : Char → Bool) (i : Str) : IRes Str :=
  .ok (i.dropWhile p, i.takeWhile p)

/-- `nom::character::complete::char` -/
def charCP (c : Char) (i : Str) : IRes Char :=
  match i with
  | [] => .error (.error .Char)
  | x :: xs => if x = c then .ok (xs, c) else .error (.error .Char)

/-- `nom::character::streaming::char` (the `char!` macro): `Incomplete` at
end of input. -/
def charSP (c : Char) (i : Str) : IRes Char :=
  match i with
  | [] => .error .incomplete
  | x :: xs => if x = c then .ok (xs, c) else .error (.error .Char)

/-- `nom::sequence::preceded` -/
def precededP (p : Str → IRes α) (q : Str → IRes β) (i : Str) : IRes β :=
  match p i with
  | .ok (i1, _) => q i1
  | .error e => .error e

/-- `nom::combinator::map` -/
def mapP (p : Str → IRes α) (g : α → β) (i : Str) : IRes β :=
  match p i with
  | .ok (i1, a) => .ok (i1, g a)
  | .error e => .error e

/-- `nom::combinator::complete`: turns `Incomplete` into `Error(Complete)`. -/
def completeP (p : Str → IRes α) (i : Str) : IRes α :=
  match p i with
  | .error .incomplete => .error (.error .Complete)
  | r => r

/-- `nom::combinator::opt`: a recoverable error yields `none` and leaves the
input untouched; `Incomplete` propagates. -/
def optP (p : Str → IRes α) (i : Str) : IRes (Option α) :=
  match p i with
  | .ok (i1, o) => .ok (i1, some o)
  | .error (.error _) => .ok (i, none)
  | .error .incomplete => .error .incomplete

/-- The loop of nom 5.1 `multi::separated_list`, after the first element has
been parsed.  Only `Err::Error` of the separator or of the element parser
ends the list; `Incomplete` propagates.  The guard after the separator
(`if i1 == i`) is the source's infinite-loop check; the element parse inside
the loop has no such guard.  `fuel` is a termination device only: every
iteration consumes the separator, so the initial fuel `i.length + 1` is
never exhausted. -/
def sepListLoop (sep : Str → IRes β) (f : Str → IRes α) :
    Nat → Str → List α → IRes (List α)
  | 0, _, _ => .error .incomplete
  | fuel + 1, i, acc =>
    match sep i with
    | .error (.error _) => .ok (i, acc)
    | .error .incomplete => .error .incomplete
    | .ok (i1, _) =>
      if i1 = i then .error (.error .SeparatedList)
      else
        match f i1 with
        | .error (.error _) => .ok (i, acc)
        | .error .incomplete => .error .incomplete
        | .ok (i2, o) => sepListLoop sep f fuel i2 (acc ++ [o])

/-- nom 5.1 `multi::separated_list` (zero or more elements; a first element
that consumes nothing is a `SeparatedList` error). -/
def separated_list (sep : Str → IRes β) (f : Str → IRes α) (i : Str) :
    IRes (List α) :=
  match f i with
  | .error (.error _) => .ok (i, [])
  | .error .incomplete => .error .incomplete
  | .ok (i1, o) =>
    if i1 = i then .error (.error .SeparatedList)
    else sepListLoop sep f (i1.length + 1) i1 [o]

/-- Rust `c as u8` on a `char`. -/
def byteOf (c : Char) : Nat := c.toNat % 256

/-- `fn is_lowercase(char: u8) -> bool { char >= 0x61 && char <= 0x7a }` -/
def is_lowercase (b : Nat) : Bool := decide (0x61 ≤ b) && decide (b ≤ 0x7a)

/-- `nom::character::is_digit` on a byte. -/
def is_digit (b : Nat) : Bool := decide (0x30 ≤ b) && decide (b ≤ 0x39)

/-- `nom::character::is_alphanumeric` on a byte. -/
def is_alphanumeric (b : Nat) : Bool :=
  (decide (0x41 ≤ b) && decide (b ≤ 0x5a)) ||
  (decide (0x61 ≤ b) && decide (b ≤ 0x7a)) ||
  is_digit b

/-- The closure in `parse_method_name`:
`is_lowercase(i as u8) || is_digit(i as u8)`. -/
def methodChar (c : Char) : Bool := is_lowercase (byteOf c) || is_digit (byteOf c)

/-- The closure in `parse_did_identifier`:
`is_alphanumeric(c as u8) || c == '.' || c == '-' || c == '_'`. -/
def idChar (c : Char) : Bool :=
  is_alphanumeric (byteOf c) || c = '.' || c = '-' || c = '_'

/-- The closure in `parse_param`:
`is_alphanumeric(i as u8) || i == '.' || i == '-' || i == '_' || i == ':'`. -/
def paramChar (c : Char) : Bool :=
  is_alphanumeric (byteOf c) || c = '.' || c = '-' || c = '_' || c = ':'

/-- The closure in `parse_path_uri`: `is_alphanumeric(i as u8)`. -/
def pathSegChar (c : Char) : Bool := is_alphanumeric (byteOf c)

/-- The closure in `parse_fragment_uri`:
`is_alphanumeric(i as u8) || i == '/' || i == '?' || i == ':' || i == '@'`. -/
def fragChar (c : Char) : Bool :=
  is_alphanumeric (byteOf c) || c = '/' || c = '?' || c = ':' || c = '@'

/-- `fn parse_param` -/
def parse_param (i : Str) : IRes Str := takeWhileP paramChar i

/-- `named!(parse_key_value_pair ..., do_parse!(key: parse_param >>
char!('=') >> val: parse_param >> (key, val)))` -/
def parse_key_value_pair (i : Str) : IRes (Str × Str) :=
  match parse_param i with
  | .error e => .error e
  | .ok (i1, key) =>
    match charSP '=' i1 with
    | .error e => .error e
    | .ok (i2, _) =>
      match parse_param i2 with
      | .error e => .error e
      | .ok (i3, val) => .ok (i3, (key, val))

/-- `fn parse_method_name` -/
def parse_method_name (i : Str) : IRes Str :=
  if i.length = 0 || i.head? = some ':' then .error (.error .LengthValue)
  else takeWhileP methodChar i

/-- `fn parse_did_identifier` -/
def parse_did_identifier (i : Str) : IRes Str :=
  if i.length = 0 then .error (.error .LengthValue)
  else takeWhileP idChar i

/-- Association-list model of `HashMap`: inserting an existing key replaces
its value, a new key is appended. -/
def hmInsert (m : List (Str × Str)) (kv : Str × Str) : List (Str × Str) :=
  if m.any (fun p => p.1 = kv.1) then
    m.map (fun p => if p.1 = kv.1 then (p.1, kv.2) else p)
  else m ++ [kv]

/-- `v.into_iter().collect::<HashMap<_,_>>()`: fold the pairs in source-text
order into the map (last write wins on a duplicate key). -/
def collectMap (l : List (Str × Str)) : List (Str × Str) :=
  l.foldl hmInsert []

/-- `HashMap::get`. -/
def hmGet (m : List (Str × Str)) (k : Str) : Option Str :=
  (m.find? (fun p => p.1 = k)).map (fun p => p.2)

/-- `fn parse_method_specfic_uri` (typo as in the source). -/
def parse_method_specfic_uri (i : Str) : IRes (List (Str × Str)) :=
  mapP (precededP (tagP (";".data))
    (separated_list (charCP ';') parse_key_value_pair)) collectMap i

/-- `fn parse_path_uri` -/
def parse_path_uri (i : Str) : IRes (List Str) :=
  mapP (precededP (tagP ("/".data))
    (separated_list (charCP '/') (takeWhileP pathSegChar))) (fun v => v) i

/-- `fn parse_query_uri` -/
def parse_query_uri (i : Str) : IRes (List (Str × Str)) :=
  mapP (precededP (tagP ("?".data))
    (separated_list (charCP '&') parse_key_value_pair)) collectMap i

/-- `fn parse_fragment_uri` -/
def parse_fragment_uri (i : Str) : IRes Str :=
  match tagP ("#".data) i with
  | .error e => .error e
  | .ok (i1, _) => takeWhileP fragChar i1

/-- `pub struct Did<'a>` (fields in source order). -/
structure Did : Type where
  method : Str
  id : Str
  query : Option (List (Str × Str))
  frag : Option Str
  path : Option (List Str)
  method_params : Option (List (Str × Str))
deriving DecidableEq

/-- The `tuple((...))` inside `Did::parse`: the mandatory
`did`-`:`-method-`:`-identifier prefix followed by the four optional
productions, each wrapped `opt(complete(..))`. -/
def didTuple (i : Str) :
    IRes (Str × Str × Option (List (Str × Str)) × Option (List Str) ×
      Option (List (Str × Str)) × Option Str) :=
  match tagP ("did".data) i with
  | .error e => .error e
  | .ok (i1, _) =>
  match tagP (":".data) i1 with
  | .error e => .error e
  | .ok (i2, _) =>
  match parse_method_name i2 with
  | .error e => .error e
  | .ok (i3, method) =>
  match tagP (":".data) i3 with
  | .error e => .error e
  | .ok (i4, _) =>
  match parse_did_identifier i4 with
  | .error e => .error e
  | .ok (i5, idv) =>
  match optP (completeP parse_method_specfic_uri) i5 with
  | .error e => .error e
  | .ok (i6, mp) =>
  match optP (completeP parse_path_uri) i6 with
  | .error e => .error e
  | .ok (i7, pa) =>
  match optP (completeP parse_query_uri) i7 with
  | .error e => .error e
  | .ok (i8, qu) =>
  match optP (completeP parse_fragment_uri) i8 with
  | .error e => .error e
  | .ok (i9, fr) => .ok (i9, (method, idv, mp, pa, qu, fr))

/-- `Did::parse` -/
def Did.parse (value : Str) : IRes Did :=
  match didTuple value with
  | .ok (rest, (method, idv, mp, pa, qu, fr)) =>
    if rest.length > 0 then .error (.error .IsNot)
    else .ok (rest, Did.mk method idv qu fr pa mp)
  | .error e => .error e

/-- Text of a path block whose segments are `segs`, after the first
segment: `/seg₁/seg₂…` (used to relate path blocks to their source text). -/
def renderSegsTail (segs : List Str) : Str :=
  match segs with
  | [] => []
  | s :: ss => '/' :: (s ++ renderSegsTail ss)

/-- Text of a `/`-triggered path block with segments `segs`. -/
def renderPath (segs : List Str) : Str :=
  match segs with
  | [] => ['/']
  | s :: ss => '/' :: (s ++ renderSegsTail ss)

/-- Text of a key/value block after the first pair, each pair preceded by
the separator: `;k₁=v₁;k₂=v₂…`. -/
def renderPairsTail (sep : Char) (ps : List (Str × Str)) : Str :=
  match ps with
  | [] => []
  | p :: ps' => sep :: (p.1 ++ '=' :: p.2 ++ renderPairsTail sep ps')

/-- Text of a parameter/query block: trigger character, then the pairs
joined by the separator. -/
def renderPairs (trigger sep : Char) (ps : List (Str × Str)) : Str :=
  match ps with
  | [] => [trigger]
  | p :: ps' => trigger :: (p.1 ++ '=' :: p.2 ++ renderPairsTail sep ps')

/-- The value of the last pair with key `k`, in source-text order. -/
def lastVal (ps : List (Str × Str)) (k : Str) : Option Str :=
  (ps.reverse.find? (fun p => p.1 = k)).map (fun p => p.2)

/-- `Did::is_valid_base_did` -/
def Did.is_valid_base_did (value : Str) : Bool :=
  match tagP ("did".data) value with
  | .error _ => false
  | .ok (i1, _) =>
  match precededP (tagP (":".data)) parse_method_name i1 with
  | .error _ => false
  | .ok (i2, _) =>
  match precededP (tagP (":".data)) parse_did_identifier i2 with
  | .error _ => false
  | .ok (rest, _) => if rest.length > 0 then false else true

/-! ## Helper lemmas -/

theorem takeWhile_append_stop (p : Char → Bool) (l r : Str)
    (hl : ∀ c ∈ l, p c = true)
    (hr : ∀ c0, r.head? = some c0 → p c0 = false) :
    (l ++ r).takeWhile p = l ∧ (l ++ r).dropWhile p = r := by
  induction l with
  | nil =>
    simp only [List.nil_append]
    cases r with
    | nil => simp
    | cons c r2 =>
      have hc := hr c rfl
      simp [List.takeWhile_cons, List.dropWhile_cons, hc]
  | cons a l2 ih =>
    have ha : p a = true := hl a (List.mem_cons_self a l2)
    have ih2 := ih (fun c hc => hl c (List.mem_cons_of_mem a hc))
    simp [List.takeWhile_cons, List.dropWhile_cons, ha, ih2.1, ih2.2]

theorem takeWhileP_append_stop (p : Char → Bool) (l r : Str)
    (hl : ∀ c ∈ l, p c = true)
    (hr : ∀ c0, r.head? = some c0 → p c0 = false) :
    takeWhileP p (l ++ r) = .ok (r, l) := by
  unfold takeWhileP
  rw [(takeWhile_append_stop p l r hl hr).1, (takeWhile_append_stop p l r hl hr).2]

theorem dropWhile_mem_fail (p : Char → Bool) (l : Str) (c0 : Char)
    (hc : c0 ∈ l) (hf : p c0 = false) :
    ∃ h t, l.dropWhile p = h :: t ∧ p h = false ∧ h ∈ l := by
  induction l with
  | nil => cases hc
  | cons a l2 ih =>
    by_cases ha : p a = true
    · have hc2 : c0 ∈ l2 := by
        rcases List.mem_cons.mp hc with h1 | h1
        · subst h1; simp [hf] at ha
        · exact h1
      obtain ⟨h, t, h1, h2, h3⟩ := ih hc2
      refine ⟨h, t, ?_, h2, List.mem_cons_of_mem a h3⟩
      simp [List.dropWhile_cons, ha, h1]
    · refine ⟨a, l2, ?_, by simpa using ha, List.mem_cons_self a l2⟩
      simp [List.dropWhile_cons, ha]

theorem dropWhile_append_left (p : Char → Bool) (l r : Str)
    (h : l.dropWhile p ≠ []) :
    (l ++ r).dropWhile p = l.dropWhile p ++ r := by
  rw [List.dropWhile_append, if_neg]
  simpa using h

theorem optP_ok_none {α : Type} (p : Str → IRes α) (i i2 : Str)
    (h : optP p i = .ok (i2, (none : Option α))) : i2 = i := by
  unfold optP at h
  cases hp : p i with
  | ok pr =>
    obtain ⟨i1, o⟩ := pr
    rw [hp] at h
    simp at h
  | error e =>
    cases e with
    | error k =>
      rw [hp] at h
      simp at h
      exact h.symm
    | incomplete =>
      rw [hp] at h
      cases h

theorem tagP_exact (t r : Str) : tagP t (t ++ r) = .ok (r, t) := by
  unfold tagP
  rw [if_pos (by rw [List.isPrefixOf_iff_prefix]; exact List.prefix_append t r),
    List.drop_left]

/-! ## Claim theorems -/

/-- C1: `Did::parse` on the literal scenario input
`did:example:21tDAKCERh95uGgKbJNHYp;name=dave/a/b/c?query=hello&say=what#key1`
succeeds consuming everything, with method `example`,
id `21tDAKCERh95uGgKbJNHYp`, method_params exactly `{name ↦ dave}`,
path `[a, b, c]`, query exactly `{query ↦ hello, say ↦ what}` and
fragment `key1`. -/
theorem c1_literal_scenario :
    Did.parse ("did:example:21tDAKCERh95uGgKbJNHYp;name=dave/a/b/c?query=hello&say=what#key1".data)
      = .ok ([], Did.mk ("example".data) ("21tDAKCERh95uGgKbJNHYp".data)
          (some [("query".data, "hello".data), ("say".data, "what".data)])
          (some ("key1".data))
          (some ["a".data, "b".data, "c".data])
          (some [("name".data, "dave".data)])) := by decide

/-- C8: on `did:exam:ple:21tDAKCERh95uGgKbJNHYp` the identifier scan stops
at the embedded `:` (consuming only `ple`), and the unconsumed
`:21tDAKCERh95uGgKbJNHYp` suffix makes `Did::parse` fail with the
trailing-input error kind (`IsNot`). -/
theorem c8_embedded_colon :
    parse_did_identifier ("ple:21tDAKCERh95uGgKbJNHYp".data)
      = .ok ((":21tDAKCERh95uGgKbJNHYp".data), "ple".data) ∧
    Did.parse ("did:exam:ple:21tDAKCERh95uGgKbJNHYp".data)
      = .error (.error .IsNot) := by decide

/-- C5 counterexample: `Did::parse("did:example:")` does not succeed — it
fails with the missing-identifier error (`LengthValue`), because
`parse_did_identifier` rejects empty input, so the claim that it succeeds
with `id = ""` is false. -/
theorem c5_counterexample :
    (Did.parse ("did:example:".data)).isOk = false ∧
    Did.parse ("did:example:".data) = .error (.error .LengthValue) := by decide

/-- C5 amended: `Did::parse("did:example:")` fails with the
missing-identifier error (empty input at the identifier position), and
`is_valid_base_did("did:example:")` is `false`, matching the crate's own
test; an empty `id` is only produced when a non-identifier character
follows the second `:` (see C9). -/
theorem c5_amended_missing_identifier :
    Did.parse ("did:example:".data) = .error (.error .LengthValue) ∧
    Did.is_valid_base_did ("did:example:".data) = false := by decide

/-- C7 counterexample: with a bare trailing `/`, the path production fails
(`separated_list`'s guard rejects a first segment consuming nothing), the
`/` is left unconsumed, and the whole parse errors — it does not yield a
present path with zero segments. -/
theorem c7_counterexample :
    parse_path_uri ("/".data) = .error (.error .SeparatedList) ∧
    (Did.parse ("did:example:id/".data)).isOk = false ∧
    Did.parse ("did:example:id/".data) = .error (.error .IsNot) := by decide

/-- C2: a successful `Did::parse` always returns an empty remaining slice;
and whenever the sequenced productions match only a proper prefix (the
tuple succeeds but leaves non-empty input), `Did::parse` returns the single
trailing-input error kind (`IsNot`) rather than a partial result. -/
theorem c2_full_consumption (s : Str) :
    (∀ rest d, Did.parse s = .ok (rest, d) → rest = []) ∧
    (∀ rest mth idv mp pa qu fr,
      didTuple s = .ok (rest, (mth, idv, mp, pa, qu, fr)) → rest ≠ [] →
      Did.parse s = .error (.error .IsNot)) := by
  constructor
  · intro rest d h
    unfold Did.parse at h
    cases ht : didTuple s with
    | error e => rw [ht] at h; cases h
    | ok pr =>
      obtain ⟨r, mth, idv, mp, pa, qu, fr⟩ := pr
      rw [ht] at h
      by_cases hr : r.length > 0
      · simp [hr] at h
      · simp [hr] at h
        have hr0 : r = [] := List.eq_nil_of_length_eq_zero (by omega)
        rw [← h.1, hr0]
  · intro rest mth idv mp pa qu fr ht hne
    unfold Did.parse
    rw [ht]
    have hlen : rest.length > 0 := List.length_pos.mpr hne
    simp [hlen]

/-- Witness for C2 at concrete inputs: `did:a:b` parses with empty rest,
and on `did:a:b c` the tuple leaves `" c"` unconsumed so parse fails with
the trailing-input kind. -/
theorem c2_full_consumption_witness :
    [] = ([] : Str) ∧
    Did.parse ("did:a:b c".data) = .error (.error .IsNot) :=
  ⟨(c2_full_consumption ("did:a:b".data)).1 []
      (Did.mk ("a".data) ("b".data) none none none none) (by decide),
   (c2_full_consumption ("did:a:b c".data)).2 (" c".data)
      ("a".data) ("b".data) none none none none (by decide) (by decide)⟩

/-- C3: `is_valid_base_did s` is `true` exactly when `Did::parse s`
succeeds (with empty rest) with method_params, path, query and frag all
absent; in particular it accepts `did:example:21tDAKCERh95uGgKbJNHYp` and
rejects `did:example:21tDAKCERh95uGgKbJNHYp/a`. -/
theorem c3_base_did_iff :
    (∀ s : Str, Did.is_valid_base_did s = true ↔
      ∃ d : Did, Did.parse s = .ok ([], d) ∧ d.method_params = none ∧
        d.path = none ∧ d.query = none ∧ d.frag = none) ∧
    Did.is_valid_base_did ("did:example:21tDAKCERh95uGgKbJNHYp".data) = true ∧
    Did.is_valid_base_did ("did:example:21tDAKCERh95uGgKbJNHYp/a".data) = false := by
  refine ⟨?_, by decide, by decide⟩
  intro s
  have o1 : optP (completeP parse_method_specfic_uri) ([] : Str) = .ok ([], none) := by decide
  have o2 : optP (completeP parse_path_uri) ([] : Str) = .ok ([], none) := by decide
  have o3 : optP (completeP parse_query_uri) ([] : Str) = .ok ([], none) := by decide
  have o4 : optP (completeP parse_fragment_uri) ([] : Str) = .ok ([], none) := by decide
  constructor
  · intro h
    unfold Did.is_valid_base_did at h
    cases h1 : tagP ("did".data) s with
    | error e => rw [h1] at h; cases h
    | ok pr1 =>
      obtain ⟨i1, t1⟩ := pr1
      simp only [h1] at h
      cases h2 : precededP (tagP (":".data)) parse_method_name i1 with
      | error e => rw [h2] at h; cases h
      | ok pr2 =>
        obtain ⟨i2, mth⟩ := pr2
        simp only [h2] at h
        cases h3 : precededP (tagP (":".data)) parse_did_identifier i2 with
        | error e => rw [h3] at h; cases h
        | ok pr3 =>
          obtain ⟨rest, idv⟩ := pr3
          simp only [h3] at h
          have hrest : rest = [] := by
            by_cases hr : rest.length > 0
            · rw [if_pos hr] at h; cases h
            · exact List.eq_nil_of_length_eq_zero (by omega)
          subst hrest
          unfold precededP at h2 h3
          cases h2a : tagP (":".data) i1 with
          | error e => rw [h2a] at h2; cases h2
          | ok pr2a =>
            obtain ⟨i1b, t2⟩ := pr2a
            simp only [h2a] at h2
            cases h3a : tagP (":".data) i2 with
            | error e => rw [h3a] at h3; cases h3
            | ok pr3a =>
              obtain ⟨i2b, t3⟩ := pr3a
              simp only [h3a] at h3
              refine ⟨Did.mk mth idv none none none none, ?_, rfl, rfl, rfl, rfl⟩
              unfold Did.parse didTuple
              simp only [h1, h2a, h2, h3a, h3, o1, o2, o3, o4]
              simp
  · rintro ⟨d, hok, hmp, hpa, hqu, hfr⟩
    unfold Did.parse at hok
    cases ht : didTuple s with
    | error e => rw [ht] at hok; cases hok
    | ok pr =>
      obtain ⟨r, mth, idv, mp, pa, qu, fr⟩ := pr
      simp only [ht] at hok
      by_cases hr : r.length > 0
      · simp [hr] at hok
      · simp [hr] at hok
        obtain ⟨hr0, hd⟩ := hok
        subst hr0
        rw [← hd] at hmp hpa hqu hfr
        simp only at hmp hpa hqu hfr
        subst hmp; subst hpa; subst hqu; subst hfr
        unfold didTuple at ht
        cases h1 : tagP ("did".data) s with
        | error e => rw [h1] at ht; cases ht
        | ok pr1 =>
          obtain ⟨i1, t1⟩ := pr1
          simp only [h1] at ht
          cases h2 : tagP (":".data) i1 with
          | error e => rw [h2] at ht; cases ht
          | ok pr2 =>
            obtain ⟨i1b, t2⟩ := pr2
            simp only [h2] at ht
            cases h3 : parse_method_name i1b with
            | error e => rw [h3] at ht; cases ht
            | ok pr3 =>
              obtain ⟨i2, mth2⟩ := pr3
              simp only [h3] at ht
              cases h4 : tagP (":".data) i2 with
              | error e => rw [h4] at ht; cases ht
              | ok pr4 =>
                obtain ⟨i2b, t3⟩ := pr4
                simp only [h4] at ht
                cases h5 : parse_did_identifier i2b with
                | error e => rw [h5] at ht; cases ht
                | ok pr5 =>
                  obtain ⟨i5, idv2⟩ := pr5
                  simp only [h5] at ht
                  cases h6 : optP (completeP parse_method_specfic_uri) i5 with
                  | error e => rw [h6] at ht; cases ht
                  | ok pr6 =>
                    obtain ⟨i6, mp2⟩ := pr6
                    simp only [h6] at ht
                    cases h7 : optP (completeP parse_path_uri) i6 with
                    | error e => rw [h7] at ht; cases ht
                    | ok pr7 =>
                      obtain ⟨i7, pa2⟩ := pr7
                      simp only [h7] at ht
                      cases h8 : optP (completeP parse_query_uri) i7 with
                      | error e => rw [h8] at ht; cases ht
                      | ok pr8 =>
                        obtain ⟨i8, qu2⟩ := pr8
                        simp only [h8] at ht
                        cases h9 : optP (completeP parse_fragment_uri) i8 with
                        | error e => rw [h9] at ht; cases ht
                        | ok pr9 =>
                          obtain ⟨i9, fr2⟩ := pr9
                          simp only [h9] at ht
                          simp only [Except.ok.injEq, Prod.mk.injEq] at ht
                          obtain ⟨hi9, hmth, hidv, hmp2, hpa2, hqu2, hfr2⟩ := ht
                          subst hmp2; subst hpa2; subst hqu2; subst hfr2
                          have e9 : i9 = i8 := optP_ok_none _ _ _ h9
                          have e8 : i8 = i7 := optP_ok_none _ _ _ h8
                          have e7 : i7 = i6 := optP_ok_none _ _ _ h7
                          have e6 : i6 = i5 := optP_ok_none _ _ _ h6
                          have hi5 : i5 = [] := by
                            rw [← e6, ← e7, ← e8, ← e9]; exact hi9
                          subst hi5
                          unfold Did.is_valid_base_did precededP
                          simp only [h1, h2, h3, h4, h5]
                          simp

/-- Witness for C3 at `did:example:21tDAKCERh95uGgKbJNHYp`: the validator
accepts it, so by the equivalence `Did::parse` succeeds with all four
optional components absent. -/
theorem c3_base_did_iff_witness :
    ∃ d : Did, Did.parse ("did:example:21tDAKCERh95uGgKbJNHYp".data) = .ok ([], d) ∧
      d.method_params = none ∧ d.path = none ∧ d.query = none ∧ d.frag = none :=
  (c3_base_did_iff.1 ("did:example:21tDAKCERh95uGgKbJNHYp".data)).mp (by decide)

/-- C9: at the identifier position, a non-empty input whose first character
is outside the identifier class is not an error: the scan consumes zero
characters and yields the empty identifier (while empty input there is the
missing-identifier error); downstream, `did:example:/a` parses with
`id = ""` and `path = ["a"]`. -/
theorem c9_zero_width_identifier (r : Str) (c0 : Char)
    (h : r.head? = some c0) (hc : idChar c0 = false) :
    parse_did_identifier r = .ok (r, []) ∧
    parse_did_identifier [] = .error (.error .LengthValue) ∧
    Did.parse ("did:example:/a".data)
      = .ok ([], Did.mk ("example".data) [] none none (some ["a".data]) none) := by
  refine ⟨?_, by decide, by decide⟩
  cases r with
  | nil => cases h
  | cons a r2 =>
    simp only [List.head?_cons, Option.some.injEq] at h
    subst h
    unfold parse_did_identifier takeWhileP
    rw [if_neg (by simp)]
    rw [List.takeWhile_cons, List.dropWhile_cons]
    simp [hc]

/-- Witness for C9 at `r = "/a"`: the identifier parser consumes nothing
and returns the empty identifier. -/
theorem c9_zero_width_identifier_witness :
    parse_did_identifier ("/a".data) = .ok ("/a".data, []) ∧
    parse_did_identifier [] = .error (.error .LengthValue) ∧
    Did.parse ("did:example:/a".data)
      = .ok ([], Did.mk ("example".data) [] none none (some ["a".data]) none) :=
  c9_zero_width_identifier ("/a".data) '/' (by decide) (by decide)

/-- C4: a well-formed `did:method:id` prefix followed by a single `;` and
nothing else fails to parse: the pair parser cannot parse a pair after the
`;`, so the parameter block yields nothing, the `;` stays unconsumed, and
the full-consumption check turns it into an overall parse failure — it is
not treated as an absent or empty parameter block of a successful parse. -/
theorem c4_semicolon_no_pairs (m idp : Str) (hm : m ≠ [])
    (hmc : ∀ c ∈ m, methodChar c = true)
    (hic : ∀ c ∈ idp, idChar c = true) :
    Did.parse ("did:".data ++ m ++ ':' :: idp ++ [';'])
      = .error (.error .IsNot) := by
  obtain ⟨mh, mt, rfl⟩ : ∃ h t, m = h :: t := by
    cases m with
    | nil => cases hm rfl
    | cons a b => exact ⟨a, b, rfl⟩
  have hsplit : ("did:".data ++ (mh :: mt) ++ ':' :: idp ++ [';'] : Str)
      = 'd' :: 'i' :: 'd' :: ':' :: ((mh :: mt) ++ ':' :: (idp ++ [';'])) := by
    simp
  rw [hsplit]
  have hmh : methodChar mh = true := hmc mh (List.mem_cons_self mh mt)
  have hmhne : mh ≠ ':' := by
    intro hcon
    rw [hcon] at hmh
    simp [methodChar, is_lowercase, is_digit, byteOf] at hmh
  have h1 : tagP ("did".data) ('d' :: 'i' :: 'd' :: ':' :: ((mh :: mt) ++ ':' :: (idp ++ [';'])))
      = .ok (':' :: ((mh :: mt) ++ ':' :: (idp ++ [';'])), "did".data) :=
    tagP_exact ("did".data) (':' :: ((mh :: mt) ++ ':' :: (idp ++ [';'])))
  have h2 : tagP (":".data) (':' :: ((mh :: mt) ++ ':' :: (idp ++ [';'])))
      = .ok ((mh :: mt) ++ ':' :: (idp ++ [';']), ":".data) :=
    tagP_exact (":".data) ((mh :: mt) ++ ':' :: (idp ++ [';']))
  have h3 : parse_method_name ((mh :: mt) ++ ':' :: (idp ++ [';']))
      = .ok (':' :: (idp ++ [';']), mh :: mt) := by
    unfold parse_method_name
    rw [if_neg, takeWhileP_append_stop methodChar (mh :: mt) (':' :: (idp ++ [';'])) hmc ?hstop]
    case hstop =>
      intro c0 hc0
      simp only [List.head?_cons, Option.some.injEq] at hc0
      subst hc0
      decide
    simp [hmhne]
  have h4 : tagP (":".data) (':' :: (idp ++ [';']))
      = .ok (idp ++ [';'], ":".data) := tagP_exact (":".data) (idp ++ [';'])
  have h5 : parse_did_identifier (idp ++ [';']) = .ok ([';'], idp) := by
    unfold parse_did_identifier
    rw [if_neg (by simp), takeWhileP_append_stop idChar idp [';'] hic ?hstop2]
    case hstop2 =>
      intro c0 hc0
      simp only [List.head?_cons, Option.some.injEq] at hc0
      subst hc0
      decide
  have h6 : optP (completeP parse_method_specfic_uri) ([';'] : Str) = .ok ([';'], none) := by decide
  have h7 : optP (completeP parse_path_uri) ([';'] : Str) = .ok ([';'], none) := by decide
  have h8 : optP (completeP parse_query_uri) ([';'] : Str) = .ok ([';'], none) := by decide
  have h9 : optP (completeP parse_fragment_uri) ([';'] : Str) = .ok ([';'], none) := by decide
  unfold Did.parse didTuple
  simp only [h1, h2, h3, h4, h5, h6, h7, h8, h9]
  simp

/-- Witness for C4 at `did:example:abc;`: the parse fails with the
trailing-input kind. -/
theorem c4_semicolon_no_pairs_witness :
    Did.parse ("did:example:abc;".data) = .error (.error .IsNot) :=
  c4_semicolon_no_pairs ("example".data) ("abc".data)
    (by decide) (by decide) (by decide)

/-- An ASCII uppercase letter fails the method-name character class. -/
theorem methodChar_of_upper (c : Char) (h1 : 0x41 ≤ c.toNat) (h2 : c.toNat ≤ 0x5a) :
    methodChar c = false := by
  unfold methodChar is_lowercase is_digit byteOf
  have hmn : c.toNat % 256 = c.toNat := Nat.mod_eq_of_lt (by omega)
  rw [hmn]
  simp only [Bool.or_eq_false_iff, Bool.and_eq_false_iff, decide_eq_false_iff_not]
  omega

/-- C6: if the method-name segment (the text between `did:` and the next
`:`, so containing no `:` itself) contains an ASCII uppercase letter,
`Did::parse` fails, whatever follows: the method scan stops inside the
segment at a non-method character that is not `:`, so the `:` tag fails. -/
theorem c6_uppercase_method (m rest : Str)
    (hup : ∃ c ∈ m, 0x41 ≤ c.toNat ∧ c.toNat ≤ 0x5a)
    (hnc : ':' ∉ m) :
    Did.parse ("did:".data ++ m ++ ':' :: rest) = .error (.error .Tag) := by
  obtain ⟨c0, hc0m, hc0a, hc0b⟩ := hup
  have hm : m ≠ [] := by
    intro h
    subst h
    cases hc0m
  obtain ⟨mh, mt, rfl⟩ : ∃ h t, m = h :: t := by
    cases m with
    | nil => cases hm rfl
    | cons a b => exact ⟨a, b, rfl⟩
  have hc0f : methodChar c0 = false := methodChar_of_upper c0 hc0a hc0b
  obtain ⟨hch, ht2, hdropeq, hchf, hchm⟩ :=
    dropWhile_mem_fail methodChar (mh :: mt) c0 hc0m hc0f
  have hchne : hch ≠ ':' := by
    intro hcon
    rw [hcon] at hchm
    exact hnc hchm
  have hmhne : mh ≠ ':' := by
    intro hcon
    rw [hcon] at hnc
    exact hnc (List.mem_cons_self ':' mt)
  have hsplit : ("did:".data ++ (mh :: mt) ++ ':' :: rest : Str)
      = 'd' :: 'i' :: 'd' :: ':' :: ((mh :: mt) ++ ':' :: rest) := by
    simp
  rw [hsplit]
  have h1 : tagP ("did".data) ('d' :: 'i' :: 'd' :: ':' :: ((mh :: mt) ++ ':' :: rest))
      = .ok (':' :: ((mh :: mt) ++ ':' :: rest), "did".data) :=
    tagP_exact ("did".data) (':' :: ((mh :: mt) ++ ':' :: rest))
  have h2 : tagP (":".data) (':' :: ((mh :: mt) ++ ':' :: rest))
      = .ok ((mh :: mt) ++ ':' :: rest, ":".data) :=
    tagP_exact (":".data) ((mh :: mt) ++ ':' :: rest)
  have hdropapp : ((mh :: mt) ++ ':' :: rest).dropWhile methodChar
      = hch :: (ht2 ++ ':' :: rest) := by
    rw [dropWhile_append_left methodChar (mh :: mt) (':' :: rest) (by rw [hdropeq]; simp),
      hdropeq]
    simp
  have h3 : parse_method_name ((mh :: mt) ++ ':' :: rest)
      = .ok (hch :: (ht2 ++ ':' :: rest),
          ((mh :: mt) ++ ':' :: rest).takeWhile methodChar) := by
    unfold parse_method_name takeWhileP
    rw [if_neg, hdropapp]
    simp [hmhne]
  have h4 : tagP (":".data) (hch :: (ht2 ++ ':' :: rest)) = .error (.error .Tag) := by
    unfold tagP
    have hpre : (":".data).isPrefixOf (hch :: (ht2 ++ ':' :: rest)) = false := by
      have h5 : (":".data : Str) = [':'] := rfl
      rw [h5, List.isPrefixOf_cons₂]
      simp [beq_iff_eq]
      intro hcon
      exact hchne hcon.symm
    rw [hpre]
    simp
  unfold Did.parse didTuple
  simp only [h1, h2, h3, h4]

/-- Witness for C6 at `did:eXample:abc`: parse fails (with the `:` tag
error, since the method scan stops at `X`). -/
theorem c6_uppercase_method_witness :
    Did.parse ("did:eXample:abc".data) = .error (.error .Tag) :=
  c6_uppercase_method ("eXample".data) ("abc".data)
    ⟨'X', by decide, by decide, by decide⟩ (by decide)

/-! ## Path round-trip (for C7) -/

theorem renderSegsTail_head (ss : List Str) (c0 : Char)
    (h : (renderSegsTail ss).head? = some c0) : pathSegChar c0 = false := by
  cases ss with
  | nil => simp [renderSegsTail] at h
  | cons s ss2 =>
    simp only [renderSegsTail, List.head?_cons, Option.some.injEq] at h
    subst h
    decide

theorem sepListLoop_path (segs : List Str) :
    ∀ (fuel : Nat) (acc : List Str),
      (∀ s ∈ segs, ∀ c ∈ s, pathSegChar c = true) →
      (renderSegsTail segs).length < fuel →
      sepListLoop (charCP '/') (takeWhileP pathSegChar) fuel
        (renderSegsTail segs) acc = .ok ([], acc ++ segs) := by
  induction segs with
  | nil =>
    intro fuel acc _ hf
    cases fuel with
    | zero => simp [renderSegsTail] at hf
    | succ f =>
      rw [sepListLoop]
      simp [renderSegsTail, charCP]
  | cons s ss ih =>
    intro fuel acc hchars hf
    cases fuel with
    | zero => simp at hf
    | succ f =>
      have hT : renderSegsTail (s :: ss) = '/' :: (s ++ renderSegsTail ss) := rfl
      rw [hT] at hf ⊢
      rw [sepListLoop]
      have hc : charCP '/' ('/' :: (s ++ renderSegsTail ss))
          = .ok (s ++ renderSegsTail ss, '/') := by simp [charCP]
      simp only [hc]
      rw [if_neg (List.cons_ne_self '/' (s ++ renderSegsTail ss)).symm]
      have e1 : takeWhileP pathSegChar (s ++ renderSegsTail ss)
          = .ok (renderSegsTail ss, s) :=
        takeWhileP_append_stop pathSegChar s (renderSegsTail ss)
          (hchars s (List.mem_cons_self s ss)) (renderSegsTail_head ss)
      simp only [e1]
      have hfuel : (renderSegsTail ss).length < f := by
        simp only [List.length_cons, List.length_append] at hf
        omega
      rw [ih f (acc ++ [s]) (fun x hx => hchars x (List.mem_cons_of_mem s hx)) hfuel]
      simp

theorem parse_path_uri_render (s0 : Str) (ss : List Str) (hs0 : s0 ≠ [])
    (hall : ∀ s ∈ s0 :: ss, ∀ c ∈ s, pathSegChar c = true) :
    parse_path_uri (renderPath (s0 :: ss)) = .ok ([], s0 :: ss) := by
  unfold parse_path_uri mapP precededP
  have htag : tagP ("/".data) (renderPath (s0 :: ss))
      = .ok (s0 ++ renderSegsTail ss, "/".data) := by
    have hr : renderPath (s0 :: ss) = "/".data ++ (s0 ++ renderSegsTail ss) := rfl
    rw [hr]
    exact tagP_exact ("/".data) (s0 ++ renderSegsTail ss)
  simp only [htag]
  have hsl : separated_list (charCP '/') (takeWhileP pathSegChar)
      (s0 ++ renderSegsTail ss) = .ok ([], s0 :: ss) := by
    unfold separated_list
    have e1 : takeWhileP pathSegChar (s0 ++ renderSegsTail ss)
        = .ok (renderSegsTail ss, s0) :=
      takeWhileP_append_stop pathSegChar s0 (renderSegsTail ss)
        (hall s0 (List.mem_cons_self s0 ss)) (renderSegsTail_head ss)
    simp only [e1]
    rw [if_neg ?hneq]
    case hneq =>
      intro hcon
      have hlen := congrArg List.length hcon
      simp only [List.length_append] at hlen
      exact hs0 (List.eq_nil_of_length_eq_zero (by omega))
    exact sepListLoop_path ss ((renderSegsTail ss).length + 1) [s0]
      (fun x hx => hall x (List.mem_cons_of_mem s0 hx)) (by omega)
  simp only [hsl]

/-- C7 amended: in a `/`-triggered path block the first segment must
consume at least one character; given that, zero-or-more further segments
separated by `/` are parsed and empty segments (from consecutive
separators, or a trailing separator) are preserved in order, never
collapsed and never rejected.  A `/` followed by nothing (or by another
`/`) fails the path production, and the leftover input then fails the
whole parse, so `did:example:id/a//b` yields path `[a, "", b]` while
`did:example:id/` is a parse error rather than a present empty path. -/
theorem c7_amended_path_segments (s0 : Str) (ss : List Str) (hs0 : s0 ≠ [])
    (hall : ∀ s ∈ s0 :: ss, ∀ c ∈ s, pathSegChar c = true) :
    parse_path_uri (renderPath (s0 :: ss)) = .ok ([], s0 :: ss) ∧
    parse_path_uri ("/".data) = .error (.error .SeparatedList) ∧
    Did.parse ("did:example:id/a//b".data)
      = .ok ([], Did.mk ("example".data) ("id".data) none none
          (some ["a".data, [], "b".data]) none) ∧
    Did.parse ("did:example:id/".data) = .error (.error .IsNot) :=
  ⟨parse_path_uri_render s0 ss hs0 hall, by decide, by decide, by decide⟩

/-- Witness for C7 (amended) at segments `["a", "", "b"]` (note the
preserved empty middle segment). -/
theorem c7_amended_path_segments_witness :
    parse_path_uri (renderPath ["a".data, [], "b".data])
      = .ok ([], ["a".data, [], "b".data]) ∧
    parse_path_uri ("/".data) = .error (.error .SeparatedList) ∧
    Did.parse ("did:example:id/a//b".data)
      = .ok ([], Did.mk ("example".data) ("id".data) none none
          (some ["a".data, [], "b".data]) none) ∧
    Did.parse ("did:example:id/".data) = .error (.error .IsNot) :=
  c7_amended_path_segments ("a".data) [[], "b".data] (by decide) (by decide)

/-! ## Key/value round-trip and map semantics (for C10) -/

theorem renderPairsTail_head (sep : Char) (hsep : paramChar sep = false)
    (ps : List (Str × Str)) (c0 : Char)
    (h : (renderPairsTail sep ps).head? = some c0) : paramChar c0 = false := by
  cases ps with
  | nil => simp [renderPairsTail] at h
  | cons p ps2 =>
    simp only [renderPairsTail, List.head?_cons, Option.some.injEq] at h
    subst h
    exact hsep

theorem parse_key_value_pair_render (k v tail : Str)
    (hk : ∀ c ∈ k, paramChar c = true) (hv : ∀ c ∈ v, paramChar c = true)
    (ht : ∀ c0, tail.head? = some c0 → paramChar c0 = false) :
    parse_key_value_pair (k ++ '=' :: (v ++ tail)) = .ok (tail, (k, v)) := by
  unfold parse_key_value_pair parse_param
  have e1 : takeWhileP paramChar (k ++ '=' :: (v ++ tail))
      = .ok ('=' :: (v ++ tail), k) :=
    takeWhileP_append_stop paramChar k ('=' :: (v ++ tail)) hk (by
      intro c0 hc0
      simp only [List.head?_cons, Option.some.injEq] at hc0
      subst hc0
      decide)
  simp only [e1]
  have e2 : charSP '=' ('=' :: (v ++ tail)) = .ok (v ++ tail, '=') := by
    simp [charSP]
  simp only [e2]
  have e3 : takeWhileP paramChar (v ++ tail) = .ok (tail, v) :=
    takeWhileP_append_stop paramChar v tail hv ht
  simp only [e3]

theorem sepListLoop_kv (sep : Char) (hsep : paramChar sep = false)
    (ps : List (Str × Str)) :
    ∀ (fuel : Nat) (acc : List (Str × Str)),
      (∀ p ∈ ps, (∀ c ∈ p.1, paramChar c = true) ∧ (∀ c ∈ p.2, paramChar c = true)) →
      (renderPairsTail sep ps).length < fuel →
      sepListLoop (charCP sep) parse_key_value_pair fuel
        (renderPairsTail sep ps) acc = .ok ([], acc ++ ps) := by
  induction ps with
  | nil =>
    intro fuel acc _ hf
    cases fuel with
    | zero => simp [renderPairsTail] at hf
    | succ f =>
      rw [sepListLoop]
      simp [renderPairsTail, charCP]
  | cons p ps2 ih =>
    intro fuel acc hall hf
    cases fuel with
    | zero => simp at hf
    | succ f =>
      obtain ⟨k, v⟩ := p
      have hT : renderPairsTail sep ((k, v) :: ps2)
          = sep :: (k ++ '=' :: (v ++ renderPairsTail sep ps2)) := by
        simp [renderPairsTail]
      rw [hT] at hf ⊢
      rw [sepListLoop]
      have hc : charCP sep (sep :: (k ++ '=' :: (v ++ renderPairsTail sep ps2)))
          = .ok (k ++ '=' :: (v ++ renderPairsTail sep ps2), sep) := by
        simp [charCP]
      simp only [hc]
      rw [if_neg (List.cons_ne_self sep _).symm]
      have e1 : parse_key_value_pair (k ++ '=' :: (v ++ renderPairsTail sep ps2))
          = .ok (renderPairsTail sep ps2, (k, v)) :=
        parse_key_value_pair_render k v (renderPairsTail sep ps2)
          (hall (k, v) (List.mem_cons_self _ _)).1
          (hall (k, v) (List.mem_cons_self _ _)).2
          (renderPairsTail_head sep hsep ps2)
      simp only [e1]
      have hfuel : (renderPairsTail sep ps2).length < f := by
        simp only [List.length_cons, List.length_append] at hf
        omega
      rw [ih f (acc ++ [(k, v)]) (fun x hx => hall x (List.mem_cons_of_mem _ hx)) hfuel]
      simp

theorem separated_list_kv (sep : Char) (hsep : paramChar sep = false)
    (k v : Str) (ps : List (Str × Str))
    (hall : ∀ p ∈ (k, v) :: ps,
      (∀ c ∈ p.1, paramChar c = true) ∧ (∀ c ∈ p.2, paramChar c = true)) :
    separated_list (charCP sep) parse_key_value_pair
      (k ++ '=' :: (v ++ renderPairsTail sep ps)) = .ok ([], (k, v) :: ps) := by
  unfold separated_list
  have e1 : parse_key_value_pair (k ++ '=' :: (v ++ renderPairsTail sep ps))
      = .ok (renderPairsTail sep ps, (k, v)) :=
    parse_key_value_pair_render k v (renderPairsTail sep ps)
      (hall (k, v) (List.mem_cons_self _ _)).1
      (hall (k, v) (List.mem_cons_self _ _)).2
      (renderPairsTail_head sep hsep ps)
  simp only [e1]
  rw [if_neg ?hneq]
  case hneq =>
    intro hcon
    have hlen := congrArg List.length hcon
    simp only [List.length_append, List.length_cons] at hlen
    omega
  exact sepListLoop_kv sep hsep ps ((renderPairsTail sep ps).length + 1) [(k, v)]
    (fun x hx => hall x (List.mem_cons_of_mem _ hx)) (by omega)

theorem hmGet_hmInsert (m : List (Str × Str)) (q : Str × Str) (k : Str) :
    hmGet (hmInsert m q) k = if q.1 = k then some q.2 else hmGet m k := by
  unfold hmGet hmInsert
  by_cases hmem : m.any (fun p => p.1 = q.1) = true
  · rw [if_pos hmem, List.find?_map]
    have hcomp : ((fun p => (decide (p.1 = k) : Bool)) ∘
        (fun p => if p.1 = q.1 then (p.1, q.2) else p))
        = fun p : Str × Str => (decide (p.1 = k) : Bool) := by
      funext p
      by_cases hp : p.1 = q.1 <;> simp [hp]
    rw [hcomp]
    cases hfind : List.find? (fun p : Str × Str => (decide (p.1 = k) : Bool)) m with
    | none =>
      by_cases hqk : q.1 = k
      · exfalso
        obtain ⟨x, hx, hxq⟩ := List.any_eq_true.mp hmem
        have hxq2 : x.1 = q.1 := by simpa using hxq
        have := List.find?_eq_none.mp hfind x hx
        simp [hxq2, hqk] at this
      · simp [hqk]
    | some p =>
      have hpk : p.1 = k := by simpa using List.find?_some hfind
      by_cases hqk : q.1 = k
      · have hpq : p.1 = q.1 := by rw [hpk, hqk]
        simp [hpq, hqk]
      · have hpq : p.1 ≠ q.1 := by
          rw [hpk]
          exact fun hh => hqk hh.symm
        simp [hpq, hqk]
  · rw [if_neg hmem, List.find?_append]
    by_cases hqk : q.1 = k
    · have hnone : List.find? (fun p : Str × Str => (decide (p.1 = k) : Bool)) m = none := by
        rw [List.find?_eq_none]
        intro x hx
        simp only [decide_eq_true_eq]
        intro hxk
        exact hmem (List.any_eq_true.mpr ⟨x, hx, by simp [hxk, hqk]⟩)
      rw [hnone]
      rw [List.find?_cons_of_pos [] (by simp [hqk])]
      simp [hqk]
    · have hone : List.find? (fun p : Str × Str => (decide (p.1 = k) : Bool)) [q] = none := by
        rw [List.find?_cons_of_neg [] (by simp [hqk])]
        rfl
      rw [hone]
      simp [hqk]

theorem lastVal_cons (p : Str × Str) (ps : List (Str × Str)) (k : Str) :
    lastVal (p :: ps) k
      = (lastVal ps k).or (if p.1 = k then some p.2 else none) := by
  unfold lastVal
  rw [List.reverse_cons, List.find?_append]
  cases hf : List.find? (fun q : Str × Str => (decide (q.1 = k) : Bool)) ps.reverse with
  | none =>
    by_cases hp : p.1 = k
    · rw [List.find?_cons_of_pos [] (by simp [hp])]
      simp [hp]
    · rw [List.find?_cons_of_neg [] (by simp [hp])]
      simp [hp]
  | some x =>
    simp [Option.or]

theorem hmGet_collectMap (ps : List (Str × Str)) (k : Str) :
    hmGet (collectMap ps) k = lastVal ps k := by
  have hgen : ∀ m : List (Str × Str),
      hmGet (List.foldl hmInsert m ps) k = (lastVal ps k).or (hmGet m k) := by
    induction ps with
    | nil =>
      intro m
      simp [lastVal]
    | cons p ps2 ih =>
      intro m
      rw [List.foldl_cons, ih (hmInsert m p), hmGet_hmInsert, lastVal_cons]
      cases hl : lastVal ps2 k with
      | none => by_cases hp : p.1 = k <;> simp [hp, Option.or]
      | some v => simp [Option.or]
  have h0 := hgen []
  have hempty : hmGet ([] : List (Str × Str)) k = none := rfl
  rw [hempty] at h0
  unfold collectMap
  cases hl2 : lastVal ps k with
  | none => rw [h0, hl2]; rfl
  | some v => rw [h0, hl2]; rfl

/-- C10: the method-parameter and query block parsers never reject
duplicate keys: a block rendering any non-empty pair list (keys and values
over the parameter character class) parses to the collected map, and a
lookup in the collected map returns the value of the last pair with that
key in source-text order (last write wins, earlier values discarded);
concretely, `did:e:i;a=1;a=2?k=x&k=y` parses with `method_params[a] = 2`
and `query[k] = y`. -/
theorem c10_last_write_wins (k0 v0 : Str) (ps : List (Str × Str))
    (hall : ∀ p ∈ (k0, v0) :: ps,
      (∀ c ∈ p.1, paramChar c = true) ∧ (∀ c ∈ p.2, paramChar c = true)) :
    parse_method_specfic_uri (renderPairs ';' ';' ((k0, v0) :: ps))
      = .ok ([], collectMap ((k0, v0) :: ps)) ∧
    parse_query_uri (renderPairs '?' '&' ((k0, v0) :: ps))
      = .ok ([], collectMap ((k0, v0) :: ps)) ∧
    (∀ k, hmGet (collectMap ((k0, v0) :: ps)) k = lastVal ((k0, v0) :: ps) k) ∧
    Did.parse ("did:e:i;a=1;a=2?k=x&k=y".data)
      = .ok ([], Did.mk ("e".data) ("i".data) (some [("k".data, "y".data)])
          none none (some [("a".data, "2".data)])) := by
  refine ⟨?_, ?_, fun k => hmGet_collectMap ((k0, v0) :: ps) k, by decide⟩
  · unfold parse_method_specfic_uri mapP precededP
    have htag : tagP (";".data) (renderPairs ';' ';' ((k0, v0) :: ps))
        = .ok (k0 ++ '=' :: (v0 ++ renderPairsTail ';' ps), ";".data) := by
      have hr : renderPairs ';' ';' ((k0, v0) :: ps)
          = ";".data ++ (k0 ++ '=' :: (v0 ++ renderPairsTail ';' ps)) := by
        simp [renderPairs]
      rw [hr]
      exact tagP_exact (";".data) (k0 ++ '=' :: (v0 ++ renderPairsTail ';' ps))
    simp only [htag, separated_list_kv ';' (by decide) k0 v0 ps hall]
  · unfold parse_query_uri mapP precededP
    have htag : tagP ("?".data) (renderPairs '?' '&' ((k0, v0) :: ps))
        = .ok (k0 ++ '=' :: (v0 ++ renderPairsTail '&' ps), "?".data) := by
      have hr : renderPairs '?' '&' ((k0, v0) :: ps)
          = "?".data ++ (k0 ++ '=' :: (v0 ++ renderPairsTail '&' ps)) := by
        simp [renderPairs]
      rw [hr]
      exact tagP_exact ("?".data) (k0 ++ '=' :: (v0 ++ renderPairsTail '&' ps))
    simp only [htag, separated_list_kv '&' (by decide) k0 v0 ps hall]

/-- Witness for C10 at the duplicate-key pair list `[(a,1), (a,2)]`: both
block parsers accept it and the collected map holds the last value `2` for
key `a`. -/
theorem c10_last_write_wins_witness :
    parse_method_specfic_uri (renderPairs ';' ';' [("a".data, "1".data), ("a".data, "2".data)])
      = .ok ([], collectMap [("a".data, "1".data), ("a".data, "2".data)]) ∧
    parse_query_uri (renderPairs '?' '&' [("a".data, "1".data), ("a".data, "2".data)])
      = .ok ([], collectMap [("a".data, "1".data), ("a".data, "2".data)]) ∧
    hmGet (collectMap [("a".data, "1".data), ("a".data, "2".data)]) ("a".data)
      = lastVal [("a".data, "1".data), ("a".data, "2".data)] ("a".data) ∧
    Did.parse ("did:e:i;a=1;a=2?k=x&k=y".data)
      = .ok ([], Did.mk ("e".data) ("i".data) (some [("k".data, "y".data)])
          none none (some [("a".data, "2".data)])) := by
  have h := c10_last_write_wins ("a".data) ("1".data) [("a".data, "2".data)] (by decide)
  exact ⟨h.1, h.2.1, h.2.2.1 ("a".data), h.2.2.2⟩
